import Mathlib

set_option maxRecDepth 1000000

/-!
Shallow embedding of the two utilities in sparkletop/media-scripts:
`check_duplicates.py` (duplicate filename scanner) and `autorename.py`
(inactivity renamer), together with theorems settling the specification
claims about them.

Machine strings are modelled as `List Char` / `String`, times as `Nat`,
similarity scores as `ℚ`.  The external libraries the scripts call are
embedded at the level of their documented, deterministic semantics:
`difflib.SequenceMatcher.ratio` (no junk heuristic fires, since every
second string handed to it is far below the autojunk cutoff of 200) and
`os.path.splitext` (POSIX flavour).
-/

namespace CheckDuplicates

/-- Length of the longest common prefix of two character lists. -/
def lcp : List Char → List Char → Nat
  | x :: xs, y :: ys => if x = y then lcp xs ys + 1 else 0
  | _, _ => 0

/-- All candidate matching blocks `(i, j, k)`: `i` a start in `a`, `j` a start
in `b`, `k` the length of the common run beginning there, enumerated in the
scan order of difflib's `find_longest_match` (ascending `i`, then ascending
`j`). -/
def blockCandidates (a b : List Char) : List (Nat × Nat × Nat) :=
  (List.range a.length).flatMap fun i =>
    (List.range b.length).map fun j => (i, j, lcp (a.drop i) (b.drop j))

/-- The accumulator step of difflib's longest-match scan: keep the incumbent
unless the candidate's block is strictly longer. -/
def pickF (best c : Nat × Nat × Nat) : Nat × Nat × Nat :=
  if best.2.2 < c.2.2 then c else best

/-- `difflib.SequenceMatcher.find_longest_match` with no junk elements: the
longest matching block, ties broken by smallest start in `a`, then smallest
start in `b`; `(0, 0, 0)` when nothing matches. -/
def flm (a b : List Char) : Nat × Nat × Nat :=
  (blockCandidates a b).foldl pickF (0, 0, 0)

/-- Fuel-indexed total size of difflib's matching blocks: find the longest
block, then recurse on the region to its left and the region to its right
(`get_matching_blocks`, summed sizes). -/
def msizeF : Nat → List Char → List Char → Nat
  | 0, _, _ => 0
  | fuel + 1, a, b =>
    if (flm a b).2.2 = 0 then 0
    else
      (flm a b).2.2 + msizeF fuel (a.take (flm a b).1) (b.take (flm a b).2.1)
        + msizeF fuel (a.drop ((flm a b).1 + (flm a b).2.2))
            (b.drop ((flm a b).2.1 + (flm a b).2.2))

/-- Total size of difflib's matching blocks for two character lists.  The
fuel `a.length + b.length` is sufficient: every recursive call strictly
shrinks the combined length. -/
def msize (a b : List Char) : Nat := msizeF (a.length + b.length) a b

/-- `difflib.SequenceMatcher.ratio()`: `2*M / (len a + len b)` where `M` is
the total matched size, and `1.0` when both sequences are empty. -/
def simScore (a b : List Char) : ℚ :=
  if a.length + b.length = 0 then 1
  else 2 * msize a b / (a.length + b.length)

/-- Rightmost index of character `c` in `s` (Python `str.rfind`), starting the
count at `i`; `none` when absent. -/
def rfindAux : List Char → Char → Nat → Option Nat
  | [], _, _ => none
  | x :: xs, c, i =>
    match rfindAux xs c (i + 1) with
    | some j => some j
    | none => if x = c then some i else none

/-- Rightmost index of character `c` in `s`, or `none`. -/
def rfind (s : List Char) (c : Char) : Option Nat := rfindAux s c 0

/-- `os.path.splitext(p)[0]` (POSIX): drop the extension, i.e. split at the
last dot, except that a run of dots directly after the last slash (or at the
very start) never begins an extension. -/
def splitextRoot (p : List Char) : List Char :=
  match rfind p '.' with
  | none => p
  | some d =>
    let fi : Nat :=
      match rfind p '/' with
      | none => 0
      | some s => s + 1
    if fi ≤ d then
      if ((p.drop fi).take (d - fi)).any (fun ch => ch ≠ '.') then p.take d else p
    else p

/-- `check_duplicates.filename_similarity`: the difflib ratio of the two
extension-stripped filenames. -/
def filename_similarity (file1 file2 : String) : ℚ :=
  simScore (splitextRoot file1.toList) (splitextRoot file2.toList)

/-- The content-type guess for one file, as returned by `filetype.guess`:
a MIME string and an extension guess. -/
structure Kind where
  mime : String
  ext : String
deriving DecidableEq

/-- One directory entry seen during the walk, with its joined path and the
result of content sniffing (`none` models `filetype.guess` returning `None`). -/
structure RawFile where
  filename : String
  path : String
  kind : Option Kind
deriving DecidableEq

/-- The filesystem as the scanner observes it: whether the root path exists,
whether it is a directory, and the `os.walk` output as a list of per-directory
file batches (the first batch is the top level). -/
structure FSModel where
  pathExists : Bool
  isDir : Bool
  steps : List (List RawFile)

/-- A collected file record (`{'filename': …, 'path': …, 'extension': …}`). -/
structure FileRec where
  filename : String
  path : String
  ext : String
deriving DecidableEq, Inhabited

/-- Substring containment on character lists (Python's `in` on `str`). -/
def containsSub (needle hay : List Char) : Bool :=
  (List.range (hay.length + 1)).any fun i => needle.isPrefixOf (hay.drop i)

/-- The collection phase of `search`: walk the steps (only the first batch
when `recurse` is unset, mirroring the `break`), keep entries whose sniffed
MIME string contains `mime_substring`, and record filename, path and detected
extension. -/
def collect (mime_substring : String) (recurse : Bool) (steps : List (List RawFile)) :
    List FileRec :=
  (if recurse then steps else steps.take 1).flatMap fun files =>
    files.filterMap fun rf =>
      match rf.kind with
      | none => none
      | some k =>
        if containsSub mime_substring.toList k.mime.toList then
          some ⟨rf.filename, rf.path, k.ext⟩
        else none

/-- One line of scanner output, structured. -/
inductive OutLine where
  | countLine (total : Nat) (mime root : String)
  | pairLine (path1 path2 : String) (sim : ℚ)
  | missingLine (root : String)
  | notDirLine (root : String)
deriving DecidableEq

/-- Python `range(a, b)` as a list. -/
def pyRange (a b : Nat) : List Nat := List.range' a (b - a)

/-- The index pairs visited by the nested loops
`for x in range(0, total-2): for y in range(x+1, total-1)`. -/
def consideredPairs (total : Nat) : List (Nat × Nat) :=
  (pyRange 0 (total - 2)).flatMap fun x =>
    (pyRange (x + 1) (total - 1)).map fun y => (x, y)

/-- The body of the scanner's pairwise loop: for each considered index pair,
when `not no_similar_extensions and f[x]['extension'] == f[y]['extension']`,
compute the similarity and emit a pair line when it reaches the threshold. -/
def pairLines (f : List FileRec) (similarity_threshold : ℚ)
    (no_similar_extensions : Bool) : List OutLine :=
  (consideredPairs f.length).filterMap fun p =>
    let fx := f.getD p.1 default
    let fy := f.getD p.2 default
    if !no_similar_extensions && (fx.ext == fy.ext) then
      let s := filename_similarity fx.filename fy.filename
      if similarity_threshold ≤ s then some (.pairLine fx.path fy.path s) else none
    else none

/-- `check_duplicates.search`, returning the exit status and the printed
lines. -/
def search (fs : FSModel) (root_dir : String) (similarity_threshold : ℚ)
    (mime_substring : String) (recurse no_similar_extensions : Bool) :
    Nat × List OutLine :=
  if !fs.pathExists then (1, [.missingLine root_dir])
  else if !fs.isDir then (1, [.notDirLine root_dir])
  else
    let f := collect mime_substring recurse fs.steps
    let total := f.length
    let head := OutLine.countLine total mime_substring root_dir
    if total = 0 then (0, [head])
    else (0, head :: pairLines f similarity_threshold no_similar_extensions)

end CheckDuplicates

namespace Autorename

/-- A rename performed by the watcher: source path and destination path. -/
structure Rename where
  src : String
  dst : String
deriving DecidableEq

/-- The state of one `Watcher` session (`autorename.Watcher`). -/
structure Watcher where
  root_dir : String
  id : String
  interval : Nat
  grace_period : Nat
  last_change_time : Nat
  watching : Bool
deriving DecidableEq

/-- `Watcher.timestamp`: refresh the last-activity time. -/
def timestamp (w : Watcher) (now : Nat) : Watcher := { w with last_change_time := now }

/-- A filesystem event delivered by the observer. -/
inductive Ev where
  | created (path : String)
  | modified (path : String)
  | deleted (path : String)
deriving DecidableEq

/-- The event handlers `on_created`, `on_modified`, `on_deleted`: every event
refreshes the timestamp; deletion of exactly the root additionally clears the
`watching` flag. -/
def handle (w : Watcher) (now : Nat) : Ev → Watcher
  | .created _ => timestamp w now
  | .modified _ => timestamp w now
  | .deleted p =>
    let w' := timestamp w now
    if p = w.root_dir then { w' with watching := false } else w'

/-- `Watcher.check_directory`: when the elapsed time since the last activity
strictly exceeds the grace period, rename the root to `<root>_<id>` and stop
watching; otherwise do nothing. -/
def check_directory (w : Watcher) (now : Nat) : Watcher × Option Rename :=
  if w.grace_period < now - w.last_change_time then
    ({ w with watching := false }, some ⟨w.root_dir, w.root_dir ++ "_" ++ w.id⟩)
  else (w, none)

/-- One step of the interleaved session execution: either the observer
delivers an event at some time, or the foreground loop wakes and polls. -/
inductive Act where
  | fsEvent (time : Nat) (e : Ev)
  | tick (time : Nat)
deriving DecidableEq

/-- The watch loop of `Watcher.awaken` over a trace of interleaved steps,
collecting the renames it performs.  Processing stops as soon as `watching`
is false: the `while self.watching` loop exits and the observer is stopped. -/
def runSession (w : Watcher) : List Act → Watcher × List Rename
  | [] => (w, [])
  | a :: rest =>
    if w.watching then
      match a with
      | .fsEvent t e => runSession (handle w t e) rest
      | .tick t =>
        let wr := check_directory w t
        let res := runSession wr.1 rest
        (res.1, wr.2.toList ++ res.2)
    else (w, [])

/-- How one `awaken` call ends. -/
inductive SessionOutcome where
  | exitCode (code : Nat) (observerStopped : Bool)
  | normalEnd (final : Watcher) (renames : List Rename)
deriving DecidableEq

/-- `Watcher.awaken`: an interrupt during the await loop exits the process
with status 0 before any observer exists; otherwise the observer starts and
the watch loop runs over `trace`.  An interrupt delivered after `k` loop
steps takes effect only if the loop is still running (`watching` still true);
it then stops the observer and exits with status 1.  Otherwise the loop ends
on its own and the session finishes normally. -/
def awaken (w : Watcher) (interruptWhileAwaiting : Bool) (trace : List Act)
    (interruptAfter : Option Nat) : SessionOutcome :=
  if interruptWhileAwaiting then .exitCode 0 false
  else
    match interruptAfter with
    | none =>
      let res := runSession w trace
      .normalEnd res.1 res.2
    | some k =>
      let res := runSession w (trace.take k)
      if res.1.watching then .exitCode 1 true else .normalEnd res.1 res.2

/-- The command-line arguments of `autorename.main`. -/
structure Args where
  interval : Nat
  grace_period : Nat
  sequence_offset : Nat
  leading_zeros : Nat
  folder : String

/-- Python `f"{n:0{z}d}"` for a natural number: its decimal digits,
left-padded with zeros to width `z`. -/
def pad (z n : Nat) : String :=
  String.mk (List.replicate (z - (Nat.repr n).length) '0') ++ Nat.repr n

/-- The id string `f"{uid}_{sequence_num:0{leading_zeros}d}"` passed to the
`Watcher` built in `main`'s loop body. -/
def mkId (uid : String) (z seq : Nat) : String := uid ++ "_" ++ pad z seq

/-- The watcher built at the top of one iteration of `main`'s loop; `now` is
the construction time (`timestamp()` runs in `__init__`). -/
def mkWatcher (args : Args) (uid : String) (seq now : Nat) : Watcher :=
  { root_dir := args.folder
    id := mkId uid args.leading_zeros seq
    interval := args.interval
    grace_period := args.grace_period
    last_change_time := now
    watching := true }

/-- The sequence number in force during the nth iteration of `main`'s
`while True` loop: it starts at `sequence_offset` and `sequence_num += 1`
runs once after every session. -/
def seqAt (offset : Nat) : Nat → Nat
  | 0 => offset
  | n + 1 => seqAt offset n + 1

/-- The watcher of the nth session of one process invocation: the run
identifier `uid` is drawn once, before the loop. -/
def nthWatcher (args : Args) (uid : String) (n now : Nat) : Watcher :=
  mkWatcher args uid (seqAt args.sequence_offset n) now

/-- The last-activity time after a trace: the time of the most recent
filesystem event, or the initial timestamp when there is none. -/
def lastActivity (t0 : Nat) : List Act → Nat
  | [] => t0
  | .fsEvent t _ :: rest => lastActivity t rest
  | .tick _ :: rest => lastActivity t0 rest

/-- Every poll tick in the trace happens within `G` of the most recent
activity before it (`last` is the activity time on entry). -/
def ticksWithinGrace (G : Nat) : Nat → List Act → Bool
  | _, [] => true
  | _, .fsEvent t _ :: rest => ticksWithinGrace G t rest
  | last, .tick t :: rest => (t - last ≤ G) && ticksWithinGrace G last rest

/-- No event in the trace deletes exactly the root path. -/
def noRootDelete (root : String) (trace : List Act) : Bool :=
  trace.all fun a =>
    match a with
    | .fsEvent _ (.deleted p) => !(p == root)
    | _ => true

lemma runSession_not_watching (w : Watcher) (hw : w.watching = false) :
    ∀ trace, runSession w trace = (w, []) := by
  intro trace
  cases trace with
  | nil => rfl
  | cons a rest => simp [runSession, hw]

lemma runSession_renames_le_one (w : Watcher) : ∀ trace, (runSession w trace).2.length ≤ 1 := by
  intro trace
  induction trace generalizing w with
  | nil => simp [runSession]
  | cons a rest ih =>
    cases hw : w.watching with
    | false => rw [runSession_not_watching w hw]; simp
    | true =>
      cases a with
      | fsEvent t e =>
        simp only [runSession, hw, if_true]
        exact ih _
      | tick t =>
        simp only [runSession, hw, if_true]
        unfold check_directory
        by_cases hfire : w.grace_period < t - w.last_change_time
        · rw [if_pos hfire]
          rw [runSession_not_watching _ rfl]
          simp
        · rw [if_neg hfire]
          simpa using ih w

lemma runSession_idle_fires (w : Watcher) (hw : w.watching = true) :
    ∀ times : List Nat, (∃ T ∈ times, w.grace_period < T - w.last_change_time) →
      runSession w (times.map Act.tick)
        = ({ w with watching := false }, [⟨w.root_dir, w.root_dir ++ "_" ++ w.id⟩]) := by
  intro times
  induction times with
  | nil => rintro ⟨T, hT, -⟩; cases hT
  | cons T rest ih =>
    rintro ⟨T', hT', hG⟩
    rw [List.map_cons]
    simp only [runSession, hw, if_true]
    unfold check_directory
    by_cases hfire : w.grace_period < T - w.last_change_time
    · rw [if_pos hfire]
      rw [runSession_not_watching _ rfl]
      rfl
    · rw [if_neg hfire]
      have hT'' : T' ∈ rest := by
        rcases List.mem_cons.1 hT' with rfl | h
        · exact absurd hG hfire
        · exact h
      rw [ih ⟨T', hT'', hG⟩]
      rfl

lemma handle_root_dir (w : Watcher) (t : Nat) (e : Ev) :
    (handle w t e).root_dir = w.root_dir := by
  cases e with
  | created p => rfl
  | modified p => rfl
  | deleted p =>
    simp only [handle, timestamp]
    split <;> rfl

lemma handle_grace (w : Watcher) (t : Nat) (e : Ev) :
    (handle w t e).grace_period = w.grace_period := by
  cases e with
  | created p => rfl
  | modified p => rfl
  | deleted p =>
    simp only [handle, timestamp]
    split <;> rfl

lemma handle_time (w : Watcher) (t : Nat) (e : Ev) :
    (handle w t e).last_change_time = t := by
  cases e with
  | created p => rfl
  | modified p => rfl
  | deleted p =>
    simp only [handle, timestamp]
    split <;> rfl

lemma handle_watching (w : Watcher) (t : Nat) (e : Ev)
    (he : ∀ p, e = .deleted p → p ≠ w.root_dir) :
    (handle w t e).watching = w.watching := by
  cases e with
  | created p => rfl
  | modified p => rfl
  | deleted p =>
    simp only [handle, timestamp]
    rw [if_neg (he p rfl)]

lemma runSession_active (w : Watcher) : ∀ trace, w.watching = true →
    noRootDelete w.root_dir trace = true →
    ticksWithinGrace w.grace_period w.last_change_time trace = true →
    (runSession w trace).2 = []
    ∧ (runSession w trace).1.last_change_time = lastActivity w.last_change_time trace
    ∧ (runSession w trace).1.watching = true := by
  intro trace
  induction trace generalizing w with
  | nil => intro hw _ _; exact ⟨rfl, rfl, hw⟩
  | cons a rest ih =>
    intro hw hnd hg
    rw [noRootDelete, List.all_cons, Bool.and_eq_true] at hnd
    cases a with
    | fsEvent t e =>
      have hne : ∀ p, e = .deleted p → p ≠ w.root_dir := by
        intro p hp
        subst hp
        simpa using hnd.1
      have hw' : (handle w t e).watching = true := by rw [handle_watching w t e hne, hw]
      have hnd' : noRootDelete (handle w t e).root_dir rest = true := by
        rw [handle_root_dir]; exact hnd.2
      have hg' : ticksWithinGrace (handle w t e).grace_period
          (handle w t e).last_change_time rest = true := by
        rw [handle_grace, handle_time]
        exact hg
      obtain ⟨h1, h2, h3⟩ := ih (handle w t e) hw' hnd' hg'
      simp only [runSession, hw, if_true]
      refine ⟨h1, ?_, h3⟩
      rw [h2, handle_time, lastActivity]
    | tick t =>
      rw [ticksWithinGrace, Bool.and_eq_true, decide_eq_true_eq] at hg
      have hnofire : ¬(w.grace_period < t - w.last_change_time) := by omega
      obtain ⟨h1, h2, h3⟩ := ih w hw hnd.2 hg.2
      simp only [runSession, hw, if_true]
      unfold check_directory
      rw [if_neg hnofire]
      exact ⟨by simpa using h1, by simpa using h2, by simpa using h3⟩

lemma seqAt_eq (offset n : Nat) : seqAt offset n = offset + n := by
  induction n with
  | zero => rfl
  | succ n ih => rw [seqAt, ih]; omega

end Autorename

namespace CheckDuplicates

lemma mem_pyRange {a b m : Nat} : m ∈ pyRange a b ↔ a ≤ m ∧ m < b := by
  unfold pyRange
  rw [List.mem_range'_1]
  omega

lemma mem_consideredPairs {total x y : Nat} :
    (x, y) ∈ consideredPairs total ↔ x < total - 2 ∧ x < y ∧ y < total - 1 := by
  unfold consideredPairs
  simp only [List.mem_flatMap, List.mem_map, mem_pyRange, Prod.mk.injEq]
  constructor
  · rintro ⟨x', hx', y', hy', rfl, rfl⟩
    omega
  · rintro ⟨h1, h2, h3⟩
    exact ⟨x, by omega, y, by omega, rfl, rfl⟩

lemma nodup_consideredPairs (total : Nat) : (consideredPairs total).Nodup := by
  unfold consideredPairs
  rw [List.nodup_flatMap]
  constructor
  · intro x _
    exact (List.nodup_range' ..).map fun _ _ h => by injection h
  · have h : (pyRange 0 (total - 2)).Nodup := List.nodup_range' ..
    refine h.imp ?_
    intro x₁ x₂ hne p hp₁ hp₂
    obtain ⟨y₁, _, rfl⟩ := List.mem_map.1 hp₁
    obtain ⟨y₂, _, h2⟩ := List.mem_map.1 hp₂
    exact hne (by injection h2.symm)

lemma consideredPairs_not_both (total x y : Nat) :
    ¬((x, y) ∈ consideredPairs total ∧ (y, x) ∈ consideredPairs total) := by
  rw [mem_consideredPairs, mem_consideredPairs]
  omega

lemma consideredPairs_eq_nil {total : Nat} (h : total ≤ 2) : consideredPairs total = [] := by
  unfold consideredPairs pyRange
  have : total - 2 = 0 := by omega
  rw [this]
  rfl

lemma lcp_le_left (a : List Char) : ∀ b, lcp a b ≤ a.length := by
  induction a with
  | nil => intro b; cases b <;> simp [lcp]
  | cons x xs ih =>
    intro b
    cases b with
    | nil => simp [lcp]
    | cons y ys =>
      simp only [lcp, List.length_cons]
      split
      · exact Nat.succ_le_succ (ih ys)
      · omega

lemma lcp_le_right (a : List Char) : ∀ b, lcp a b ≤ b.length := by
  induction a with
  | nil => intro b; cases b <;> simp [lcp]
  | cons x xs ih =>
    intro b
    cases b with
    | nil => simp [lcp]
    | cons y ys =>
      simp only [lcp, List.length_cons]
      split
      · exact Nat.succ_le_succ (ih ys)
      · omega

lemma lcp_self (a : List Char) : lcp a a = a.length := by
  induction a with
  | nil => rfl
  | cons x xs ih => simp [lcp, ih]

lemma foldl_pick (l : List (Nat × Nat × Nat)) (init : Nat × Nat × Nat) :
    l.foldl pickF init = init ∨ l.foldl pickF init ∈ l := by
  induction l generalizing init with
  | nil => left; rfl
  | cons c rest ih =>
    rw [List.foldl_cons]
    rcases ih (pickF init c) with h | h
    · rw [h]
      unfold pickF
      split
      · right; exact List.mem_cons_self ..
      · left; rfl
    · right; exact List.mem_cons_of_mem _ h

lemma foldl_pick_k_ge (l : List (Nat × Nat × Nat)) (init : Nat × Nat × Nat) :
    init.2.2 ≤ (l.foldl pickF init).2.2 ∧ ∀ c ∈ l, c.2.2 ≤ (l.foldl pickF init).2.2 := by
  induction l generalizing init with
  | nil => exact ⟨le_refl _, by simp⟩
  | cons c rest ih =>
    obtain ⟨h1, h2⟩ := ih (pickF init c)
    have hic : init.2.2 ≤ (pickF init c).2.2 ∧ c.2.2 ≤ (pickF init c).2.2 := by
      unfold pickF; split <;> omega
    rw [List.foldl_cons]
    refine ⟨le_trans hic.1 h1, ?_⟩
    intro d hd
    rcases List.mem_cons.1 hd with rfl | hd
    · exact le_trans hic.2 h1
    · exact h2 d hd

lemma mem_blockCandidates {a b : List Char} {c : Nat × Nat × Nat}
    (h : c ∈ blockCandidates a b) :
    c.1 < a.length ∧ c.2.1 < b.length ∧ c.2.2 = lcp (a.drop c.1) (b.drop c.2.1) := by
  unfold blockCandidates at h
  simp only [List.mem_flatMap, List.mem_map, List.mem_range] at h
  obtain ⟨i, hi, j, hj, rfl⟩ := h
  exact ⟨hi, hj, rfl⟩

lemma flm_mem_or_init (a b : List Char) :
    flm a b = (0, 0, 0) ∨ flm a b ∈ blockCandidates a b :=
  foldl_pick _ _

lemma flm_bounds (a b : List Char) :
    (flm a b).1 + (flm a b).2.2 ≤ a.length ∧ (flm a b).2.1 + (flm a b).2.2 ≤ b.length := by
  rcases flm_mem_or_init a b with h | h
  · rw [h]; simp
  · obtain ⟨hi, hj, hk⟩ := mem_blockCandidates h
    have h1 := lcp_le_left (a.drop (flm a b).1) (b.drop (flm a b).2.1)
    have h2 := lcp_le_right (a.drop (flm a b).1) (b.drop (flm a b).2.1)
    rw [List.length_drop] at h1
    rw [List.length_drop] at h2
    constructor <;> omega

lemma flm_self (a : List Char) (ha : a ≠ []) : flm a a = (0, 0, a.length) := by
  have hlen : 0 < a.length := List.length_pos.2 ha
  have hmem : ((0, 0, a.length) : Nat × Nat × Nat) ∈ blockCandidates a a := by
    unfold blockCandidates
    simp only [List.mem_flatMap, List.mem_map, List.mem_range]
    exact ⟨0, hlen, 0, hlen, by simp [lcp_self]⟩
  have hge : a.length ≤ (flm a a).2.2 := (foldl_pick_k_ge _ _).2 _ hmem
  have hb := flm_bounds a a
  rcases flm_mem_or_init a a with h0 | hm
  · rw [h0] at hge
    have hge0 : a.length ≤ 0 := hge
    omega
  · obtain ⟨hi, hj, hk⟩ := mem_blockCandidates hm
    rcases hflm : flm a a with ⟨i, j, k⟩
    rw [hflm] at hge hb hi hj hk
    simp only at hge hb hi hj hk ⊢
    have hik : i = 0 := by omega
    have hjk : j = 0 := by omega
    subst hik hjk
    have : k = a.length := by omega
    subst this
    rfl

lemma msizeF_nil (fuel : Nat) : msizeF fuel [] [] = 0 := by
  cases fuel <;> rfl

lemma msizeF_le (fuel : Nat) : ∀ a b : List Char, msizeF fuel a b ≤ a.length ∧ msizeF fuel a b ≤ b.length := by
  induction fuel with
  | zero => intro a b; simp [msizeF]
  | succ fuel ih =>
    intro a b
    have hb := flm_bounds a b
    rw [msizeF]
    by_cases hk : (flm a b).2.2 = 0
    · rw [if_pos hk]; omega
    · rw [if_neg hk]
      obtain ⟨hl1, hl2⟩ := ih (a.take (flm a b).1) (b.take (flm a b).2.1)
      obtain ⟨hr1, hr2⟩ :=
        ih (a.drop ((flm a b).1 + (flm a b).2.2)) (b.drop ((flm a b).2.1 + (flm a b).2.2))
      rw [List.length_take] at hl1
      rw [List.length_take] at hl2
      rw [List.length_drop] at hr1
      rw [List.length_drop] at hr2
      constructor <;> omega

lemma msize_le (a b : List Char) : msize a b ≤ a.length ∧ msize a b ≤ b.length :=
  msizeF_le _ a b

lemma msize_self (a : List Char) (ha : a ≠ []) : msize a a = a.length := by
  have hlen : 0 < a.length := List.length_pos.2 ha
  have hfuel : a.length + a.length = (a.length + a.length - 1) + 1 := by omega
  unfold msize
  rw [hfuel, msizeF, flm_self a ha]
  simp only [List.take_zero, Nat.zero_add, List.drop_length, msizeF_nil]
  rw [if_neg (by omega)]
  omega

lemma simScore_nonneg (a b : List Char) : 0 ≤ simScore a b := by
  unfold simScore
  split
  · norm_num
  · positivity

lemma simScore_le_one (a b : List Char) : simScore a b ≤ 1 := by
  unfold simScore
  split
  · norm_num
  · rename_i h
    have hm := msize_le a b
    have hpos : (0 : ℚ) < (a.length : ℚ) + (b.length : ℚ) := by
      have : 0 < a.length + b.length := Nat.pos_of_ne_zero h
      exact_mod_cast this
    rw [div_le_one hpos]
    have h2 : 2 * msize a b ≤ a.length + b.length := by omega
    exact_mod_cast h2

lemma simScore_self_eq_one (a : List Char) : simScore a a = 1 := by
  rcases eq_or_ne a [] with rfl | ha
  · rfl
  · have hlen : 0 < a.length := List.length_pos.2 ha
    unfold simScore
    rw [if_neg (by omega), msize_self a ha]
    have hpos : (0 : ℚ) < (a.length : ℚ) + (a.length : ℚ) := by
      have : 0 < a.length + a.length := by omega
      exact_mod_cast this
    rw [div_eq_one_iff_eq (ne_of_gt hpos)]
    ring

lemma filename_similarity_stem_eq {a b : String}
    (h : splitextRoot a.toList = splitextRoot b.toList) : filename_similarity a b = 1 := by
  unfold filename_similarity
  rw [h]
  exact simScore_self_eq_one _

end CheckDuplicates

namespace CheckDuplicates

/-- The walk of a directory holding three audio files, two of which
(`song.mp3`, `song.wav`) share the base name `song` but differ in detected
extension. -/
def c1Walk : List (List RawFile) :=
  [[⟨"song.mp3", "/music/song.mp3", some ⟨"audio/mpeg", "mp3"⟩⟩,
    ⟨"song.wav", "/music/song.wav", some ⟨"audio/x-wav", "wav"⟩⟩,
    ⟨"track.ogg", "/music/track.ogg", some ⟨"audio/ogg", "ogg"⟩⟩]]

/-- A filesystem whose existing root directory walks to `c1Walk`. -/
def c1FS : FSModel := ⟨true, true, c1Walk⟩

/-- C1: the claim says a considered pair is compared and reported unless
`no_similar_extensions` is set and both extensions agree; the code instead
compares a pair only when the flag is unset AND the extensions agree.  On
three collected audio files the loop considers the pair (song.mp3, song.wav),
whose base-name similarity 1 meets the 0.5 threshold with the flag unset,
yet the scanner's output holds no pair line at all — only the count line. -/
theorem scanner_cross_extension_pair_skipped :
    (collect "audio" false c1Walk).length = 3
    ∧ ((collect "audio" false c1Walk).getD 0 default).filename = "song.mp3"
    ∧ ((collect "audio" false c1Walk).getD 1 default).filename = "song.wav"
    ∧ ((collect "audio" false c1Walk).getD 0 default).ext
        ≠ ((collect "audio" false c1Walk).getD 1 default).ext
    ∧ (0, 1) ∈ consideredPairs (collect "audio" false c1Walk).length
    ∧ (1 : ℚ) / 2 ≤ filename_similarity "song.mp3" "song.wav"
    ∧ search c1FS "/music" (1 / 2) "audio" false false
        = (0, [.countLine 3 "audio" "/music"]) := by
  refine ⟨by decide, by decide, by decide, by decide, by decide, ?_, by decide⟩
  rw [filename_similarity_stem_eq (by decide)]
  norm_num

/-- C2: the scanner's comparison loop considers exactly the index pairs
`(x, y)` with `x < total - 2` and `x < y < total - 1` over the collected
list, each unordered pair at most once; the last collected file never
appears as the second member of any pair and never as the first member. -/
theorem scanner_pair_bounds (total x y : Nat) :
    ((x, y) ∈ consideredPairs total ↔ x < total - 2 ∧ x < y ∧ y < total - 1)
    ∧ (consideredPairs total).Nodup
    ∧ ¬((x, y) ∈ consideredPairs total ∧ (y, x) ∈ consideredPairs total)
    ∧ (∀ x' y', (x', y') ∈ consideredPairs total → y' ≠ total - 1 ∧ x' ≠ total - 1) := by
  refine ⟨mem_consideredPairs, nodup_consideredPairs total,
    consideredPairs_not_both total x y, ?_⟩
  intro x' y' h
  rw [mem_consideredPairs] at h
  omega

theorem scanner_pair_bounds_witness :
    ((0, 1) ∈ consideredPairs 5 ↔ 0 < 5 - 2 ∧ 0 < 1 ∧ 1 < 5 - 1)
    ∧ (consideredPairs 5).Nodup
    ∧ ¬((0, 1) ∈ consideredPairs 5 ∧ (1, 0) ∈ consideredPairs 5)
    ∧ (∀ x' y', (x', y') ∈ consideredPairs 5 → y' ≠ 5 - 1 ∧ x' ≠ 5 - 1) :=
  scanner_pair_bounds 5 0 1

/-- C3: when at most two matching files are collected the pair loop body
never runs: the scanner prints exactly the count line and returns 0, even if
the two files have identical base names. -/
theorem scanner_two_files_only_count_line (fs : FSModel) (root mime : String)
    (thr : ℚ) (recurse nse : Bool)
    (hex : fs.pathExists = true) (hdir : fs.isDir = true)
    (hle : (collect mime recurse fs.steps).length ≤ 2) :
    search fs root thr mime recurse nse
      = (0, [.countLine (collect mime recurse fs.steps).length mime root]) := by
  have hpairs : pairLines (collect mime recurse fs.steps) thr nse = [] := by
    unfold pairLines
    rw [consideredPairs_eq_nil hle]
    rfl
  by_cases h0 : (collect mime recurse fs.steps).length = 0
  · simp [search, hex, hdir, h0]
  · simp [search, hex, hdir, h0, hpairs]

theorem scanner_two_files_only_count_line_witness :
    search ⟨true, true, [[⟨"song.mp3", "/m/song.mp3", some ⟨"audio/mpeg", "mp3"⟩⟩,
        ⟨"song.wav", "/m/song.wav", some ⟨"audio/x-wav", "wav"⟩⟩]]⟩
        "/m" (8 / 10) "audio" false false
      = (0, [.countLine (collect "audio" false
          [[⟨"song.mp3", "/m/song.mp3", some ⟨"audio/mpeg", "mp3"⟩⟩,
            ⟨"song.wav", "/m/song.wav", some ⟨"audio/x-wav", "wav"⟩⟩]]).length
          "audio" "/m"]) :=
  scanner_two_files_only_count_line _ _ _ _ _ _ rfl rfl (by decide)

/-- C6: the scanner returns exit status 1 exactly when the root path is
missing or not a directory; in every other case it returns 0, and with zero
matching files it prints exactly the count line `Found 0 files of type X in
Y` and no pair output. -/
theorem scanner_exit_status (fs : FSModel) (root mime : String) (thr : ℚ)
    (recurse nse : Bool) :
    ((search fs root thr mime recurse nse).1 = 1
      ↔ fs.pathExists = false ∨ fs.isDir = false)
    ∧ (fs.pathExists = true → fs.isDir = true → collect mime recurse fs.steps = [] →
        search fs root thr mime recurse nse = (0, [.countLine 0 mime root])) := by
  constructor
  · cases hE : fs.pathExists with
    | false => simp [search, hE]
    | true =>
      cases hD : fs.isDir with
      | false => simp [search, hE, hD]
      | true =>
        unfold search
        rw [hE, hD]
        simp only [Bool.not_true, Bool.false_eq_true, if_false]
        split <;> simp
  · intro hE hD hc
    unfold search
    rw [hE, hD, hc]
    simp

theorem scanner_exit_status_witness :
    search ⟨true, true, []⟩ "/m" (8 / 10) "audio" false false
      = (0, [.countLine 0 "audio" "/m"]) :=
  (scanner_exit_status ⟨true, true, []⟩ "/m" "audio" (8 / 10) false false).2 rfl rfl rfl

/-- C10 counterexample: the similarity function of the code (difflib's
`ratio`) is not symmetric: on the extension-free names `abZcdQab` and `cdab`
it yields 1/3 in one order and 2/3 in the other. -/
theorem filename_similarity_asymmetric :
    filename_similarity "abZcdQab" "cdab" ≠ filename_similarity "cdab" "abZcdQab" := by
  have e1 : splitextRoot "abZcdQab".toList = "abZcdQab".toList := by decide
  have e2 : splitextRoot "cdab".toList = "cdab".toList := by decide
  have h1 : msize "abZcdQab".toList "cdab".toList = 2 := by decide
  have h2 : msize "cdab".toList "abZcdQab".toList = 4 := by decide
  have l1 : ("abZcdQab".toList).length = 8 := by decide
  have l2 : ("cdab".toList).length = 4 := by decide
  unfold filename_similarity simScore
  rw [e1, e2, h1, h2, l1, l2]
  norm_num

/-- C10 amended: `filename_similarity` is computed on the extension-stripped
base names, lies in the closed range [0, 1], and equals 1 for identical base
names; `filename_similarity("track01.mp3", "track01_copy.mp3") > 0.7` and
`filename_similarity("a.mp3", "zzz.mp3") < 0.3`.  (Symmetry, asserted by the
original claim, does not hold in general.) -/
theorem filename_similarity_props :
    (∀ a b : String, filename_similarity a b
        = simScore (splitextRoot a.toList) (splitextRoot b.toList))
    ∧ (∀ a b : String, 0 ≤ filename_similarity a b ∧ filename_similarity a b ≤ 1)
    ∧ (∀ a b : String, splitextRoot a.toList = splitextRoot b.toList →
        filename_similarity a b = 1)
    ∧ 7 / 10 < filename_similarity "track01.mp3" "track01_copy.mp3"
    ∧ filename_similarity "a.mp3" "zzz.mp3" < 3 / 10 := by
  refine ⟨fun a b => rfl,
    fun a b => ⟨simScore_nonneg _ _, simScore_le_one _ _⟩,
    fun a b h => filename_similarity_stem_eq h, ?_, ?_⟩
  · have e1 : splitextRoot "track01.mp3".toList = "track01".toList := by decide
    have e2 : splitextRoot "track01_copy.mp3".toList = "track01_copy".toList := by decide
    have h1 : msize "track01".toList "track01_copy".toList = 7 := by decide
    have l1 : ("track01".toList).length = 7 := by decide
    have l2 : ("track01_copy".toList).length = 12 := by decide
    unfold filename_similarity simScore
    rw [e1, e2, h1, l1, l2]
    norm_num
  · have e1 : splitextRoot "a.mp3".toList = "a".toList := by decide
    have e2 : splitextRoot "zzz.mp3".toList = "zzz".toList := by decide
    have h1 : msize "a".toList "zzz".toList = 0 := by decide
    have l1 : ("a".toList).length = 1 := by decide
    have l2 : ("zzz".toList).length = 3 := by decide
    unfold filename_similarity simScore
    rw [e1, e2, h1, l1, l2]
    norm_num

theorem filename_similarity_props_witness :
    filename_similarity "mix.flac" "mix.ogg" = 1 :=
  filename_similarity_props.2.2.1 "mix.flac" "mix.ogg" (by decide)

end CheckDuplicates

namespace Autorename

/-- C4: on an idle trace (poll ticks only) containing a tick whose elapsed
time since the last activity exceeds the grace period, the session renames
the root exactly once, to `<root>_<uid>_<zero-padded sequence>`, clears the
`watching` flag, and `awaken` finishes normally; moreover no session ever
performs more than one rename. -/
theorem renamer_idle_rename_once (args : Args) (uid : String) (n now : Nat)
    (times : List Nat) (hfire : ∃ T ∈ times, args.grace_period < T - now) :
    runSession (nthWatcher args uid n now) (times.map Act.tick)
      = ({ nthWatcher args uid n now with watching := false },
          [⟨args.folder, args.folder ++ "_" ++ mkId uid args.leading_zeros
              (seqAt args.sequence_offset n)⟩])
    ∧ mkId uid args.leading_zeros (seqAt args.sequence_offset n)
        = uid ++ "_" ++ pad args.leading_zeros (seqAt args.sequence_offset n)
    ∧ (∀ (w : Watcher) (trace : List Act), (runSession w trace).2.length ≤ 1)
    ∧ awaken (nthWatcher args uid n now) false (times.map Act.tick) none
        = .normalEnd { nthWatcher args uid n now with watching := false }
            [⟨args.folder, args.folder ++ "_" ++ mkId uid args.leading_zeros
                (seqAt args.sequence_offset n)⟩] := by
  have h := runSession_idle_fires (nthWatcher args uid n now) rfl times hfire
  refine ⟨h, rfl, fun w trace => runSession_renames_le_one w trace, ?_⟩
  simp only [awaken]
  rw [h]
  exact rfl

theorem renamer_idle_rename_once_witness :
    runSession (nthWatcher ⟨10, 600, 0, 2, "/drop"⟩ "ab12cd34" 0 0) ([700].map Act.tick)
      = ({ nthWatcher ⟨10, 600, 0, 2, "/drop"⟩ "ab12cd34" 0 0 with watching := false },
          [⟨"/drop", "/drop" ++ "_" ++ mkId "ab12cd34" 2 (seqAt 0 0)⟩])
    ∧ mkId "ab12cd34" 2 (seqAt 0 0) = "ab12cd34" ++ "_" ++ pad 2 (seqAt 0 0)
    ∧ (∀ (w : Watcher) (trace : List Act), (runSession w trace).2.length ≤ 1)
    ∧ awaken (nthWatcher ⟨10, 600, 0, 2, "/drop"⟩ "ab12cd34" 0 0) false
          ([700].map Act.tick) none
        = .normalEnd { nthWatcher ⟨10, 600, 0, 2, "/drop"⟩ "ab12cd34" 0 0 with
              watching := false }
            [⟨"/drop", "/drop" ++ "_" ++ mkId "ab12cd34" 2 (seqAt 0 0)⟩] :=
  renamer_idle_rename_once ⟨10, 600, 0, 2, "/drop"⟩ "ab12cd34" 0 0 [700]
    ⟨700, by decide, by decide⟩

/-- C5: a deletion event whose path is exactly the watched root marks the
session inactive and halts it: no rename is ever performed afterwards,
whatever the elapsed inactivity time and whatever follows in the trace. -/
theorem renamer_root_delete_halts (w : Watcher) (t : Nat) (rest : List Act) :
    (runSession w (.fsEvent t (.deleted w.root_dir) :: rest)).2 = []
    ∧ (runSession w (.fsEvent t (.deleted w.root_dir) :: rest)).1.watching = false := by
  cases hw : w.watching with
  | false =>
    rw [runSession_not_watching w hw]
    exact ⟨rfl, hw⟩
  | true =>
    simp only [runSession]
    rw [if_pos hw]
    have hstop : (handle w t (.deleted w.root_dir)).watching = false := by
      simp [handle, timestamp]
    rw [runSession_not_watching _ hstop]
    exact ⟨rfl, hstop⟩

/-- C7: an interrupt while awaiting the target exits with status 0 (no
observer existed to stop); an interrupt while the watch loop is still
running stops the observer and exits with status 1. -/
theorem renamer_interrupt_exit_codes (w : Watcher) (trace : List Act) (k : Nat)
    (hk : (runSession w (trace.take k)).1.watching = true) :
    (∀ (w' : Watcher) (tr : List Act) (i : Option Nat),
        awaken w' true tr i = .exitCode 0 false)
    ∧ awaken w false trace (some k) = .exitCode 1 true := by
  refine ⟨fun w' tr i => rfl, ?_⟩
  simp only [awaken]
  rw [if_pos hk]
  rfl

theorem renamer_interrupt_exit_codes_witness :
    (∀ (w' : Watcher) (tr : List Act) (i : Option Nat),
        awaken w' true tr i = .exitCode 0 false)
    ∧ awaken ⟨"/d", "i0", 10, 600, 0, true⟩ false [] (some 0) = .exitCode 1 true :=
  renamer_interrupt_exit_codes ⟨"/d", "i0", 10, 600, 0, true⟩ [] 0 rfl

/-- C8: after any session the driver loop builds the next watcher for the
same folder with the sequence number exactly one higher; the sequence is
strictly monotone starting from the configured offset, and every session's
id is the fixed per-process uid followed by the zero-padded sequence. -/
theorem renamer_driver_sequence (args : Args) (uid : String) (n now now' : Nat) :
    (nthWatcher args uid (n + 1) now').root_dir = (nthWatcher args uid n now).root_dir
    ∧ seqAt args.sequence_offset (n + 1) = seqAt args.sequence_offset n + 1
    ∧ seqAt args.sequence_offset n = args.sequence_offset + n
    ∧ (∀ m k : Nat, m < k → seqAt args.sequence_offset m < seqAt args.sequence_offset k)
    ∧ (nthWatcher args uid n now).id
        = uid ++ "_" ++ pad args.leading_zeros (args.sequence_offset + n) := by
  refine ⟨rfl, rfl, seqAt_eq _ _, ?_, ?_⟩
  · intro m k h
    rw [seqAt_eq, seqAt_eq]
    omega
  · show mkId uid args.leading_zeros (seqAt args.sequence_offset n) = _
    rw [seqAt_eq]
    rfl

theorem renamer_driver_sequence_witness :
    (nthWatcher ⟨10, 600, 4, 3, "/drop"⟩ "beef" (1 + 1) 5).root_dir
        = (nthWatcher ⟨10, 600, 4, 3, "/drop"⟩ "beef" 1 0).root_dir
    ∧ seqAt 4 (1 + 1) = seqAt 4 1 + 1
    ∧ seqAt 4 1 = 4 + 1
    ∧ (∀ m k : Nat, m < k → seqAt 4 m < seqAt 4 k)
    ∧ (nthWatcher ⟨10, 600, 4, 3, "/drop"⟩ "beef" 1 0).id = "beef" ++ "_" ++ pad 3 (4 + 1) :=
  renamer_driver_sequence ⟨10, 600, 4, 3, "/drop"⟩ "beef" 1 0 5

/-- C9: while every delivered create/modify/delete event leaves the session
alive (no root deletion) and every poll tick falls within the grace period of
the latest activity, no rename occurs, the session stays watching, and the
last-activity timestamp equals the arrival time of the most recent event. -/
theorem renamer_activity_tracking (w : Watcher) (trace : List Act)
    (hw : w.watching = true)
    (hnd : noRootDelete w.root_dir trace = true)
    (hg : ticksWithinGrace w.grace_period w.last_change_time trace = true) :
    (runSession w trace).2 = []
    ∧ (runSession w trace).1.last_change_time = lastActivity w.last_change_time trace
    ∧ (runSession w trace).1.watching = true :=
  runSession_active w trace hw hnd hg

/-- An interleaved trace of events and poll ticks used to instantiate the
activity-tracking theorem. -/
def c9trace : List Act :=
  [.fsEvent 5 (.created "/d/x"), .tick 100, .fsEvent 300 (.modified "/d/x"),
   .tick 500, .fsEvent 550 (.deleted "/d/x"), .tick 900]

theorem renamer_activity_tracking_witness :
    (runSession ⟨"/d", "i0", 10, 600, 0, true⟩ c9trace).2 = []
    ∧ (runSession ⟨"/d", "i0", 10, 600, 0, true⟩ c9trace).1.last_change_time
        = lastActivity 0 c9trace
    ∧ (runSession ⟨"/d", "i0", 10, 600, 0, true⟩ c9trace).1.watching = true :=
  renamer_activity_tracking ⟨"/d", "i0", 10, 600, 0, true⟩ c9trace rfl
    (by decide) (by decide)

end Autorename
